import Mathlib
namespace RustDocsMcp
/-!
Verification of the documentation ingestion-and-retrieval pipeline
(`doc_loader.rs`, `embeddings.rs`, `database.rs`).

The tokenizer (`tiktoken_rs::CoreBPE`) is an external oracle; it is modelled
by a pair of abstract functions `encode : String → List Nat` and
`decode : List Nat → Option String`.  Floating point numbers are modelled by
rationals.  The SQL layer of `database.rs` is modelled by in-memory tables
(lists of rows) with the upsert/aggregate semantics of the statements the
code issues.
-/
/-! ### String primitives

Models of the Rust `str` primitives the pipeline uses (`split`, `ends_with`,
`starts_with`, `contains`, `strip_prefix`-style trimming), written over
`String.data` so that the kernel can evaluate them on concrete inputs. -/
/-- Worker for `rustSplit`; `fuel = length of the remaining text` suffices. -/
def splitSepAux (sep : List Char) : Nat → List Char → List Char → List (List Char)
  | _, [], acc => [acc.reverse]
  | 0, _ :: _, acc => [acc.reverse]
  | fuel + 1, l@(c :: rest), acc =>
      if sep.isPrefixOf l then
        acc.reverse :: splitSepAux sep fuel (l.drop sep.length) []
      else
        splitSepAux sep fuel rest (c :: acc)
/-- Rust `str::split(sep)` for a nonempty separator: non-overlapping
left-to-right matches. -/
def rustSplit (sep : String) (s : String) : List String :=
  (splitSepAux sep.data s.data.length s.data []).map fun cs => String.mk cs
/-- Rust `str::ends_with(post)`. -/
def strEndsWith (s post : String) : Bool := post.data.isSuffixOf s.data
/-- Rust `str::starts_with(pre)`. -/
def strStartsWith (s pre : String) : Bool := pre.data.isPrefixOf s.data
/-- Rust `str::contains(sub)` for a nonempty pattern: `sub` occurs in `s`
iff splitting on it yields more than one part. -/
def containsSub (s sub : String) : Bool := (rustSplit sub s).length != 1
/-! ### Chunker (`embeddings.rs`, `_chunk_content`) -/
/-- Worker for `splitTokens`.  The `fuel` argument only makes the recursion
structural (hence kernel-computable); `fuel = tokens.length` always suffices
because each step strictly shortens the list when `0 < limit`. -/
def splitTokensAux (limit : Nat) : Nat → List Nat → List (List Nat)
  | _, [] => []
  | 0, _ :: _ => []
  | fuel + 1, t => t.take limit :: splitTokensAux limit fuel (t.drop limit)
/-- The token-boundary fallback loop of `_chunk_content`
(`while start < tokens.len() { end = min(start+limit, len); ...; start = end }`).
Splits a token list into consecutive pieces of at most `limit` tokens.
(The Rust loop does not terminate when `token_limit = 0`; that case is
guarded out here and never arises: the only call site uses limit 7800.) -/
def splitTokens (limit : Nat) (tokens : List Nat) : List (List Nat) :=
  if limit = 0 then [] else splitTokensAux limit tokens.length tokens
/-- The sentence-accumulation loop of `_chunk_content`.  State:
`chunks` (closed chunks so far), `curS` (`current_chunk_sentences`),
`curT` (`current_chunk_tokens`).  `tokens` is the token list of the *whole*
content, which the oversized-sentence fallback of the source splits. -/
def chunkLoop (encode : String → List Nat) (decode : List Nat → Option String)
    (token_limit : Nat) (tokens : List Nat) :
    List String → List String → List String → List Nat → List String
  | [], chunks, curS, _curT =>
      if curS ≠ [] then chunks ++ [String.intercalate " " curS] else chunks
  | sentence :: rest, chunks, curS, curT =>
      let sentence_with_period :=
        if strEndsWith sentence "." then sentence else sentence ++ "."
      let sentence_tokens := encode sentence_with_period
      -- if adding this sentence would exceed the limit, save current chunk
      let st :=
        if curT ≠ [] ∧ curT.length + sentence_tokens.length > token_limit then
          (chunks ++ [String.intercalate " " curS], ([] : List String), ([] : List Nat))
        else (chunks, curS, curT)
      -- a single sentence exceeding the limit is "split further": the source
      -- splits `tokens` (the whole content), not the sentence
      if sentence_tokens.length > token_limit then
        chunkLoop encode decode token_limit tokens rest
          (st.1 ++ (splitTokens token_limit tokens).filterMap decode) st.2.1 st.2.2
      else
        chunkLoop encode decode token_limit tokens rest
          st.1 (st.2.1 ++ [sentence_with_period]) (st.2.2 ++ sentence_tokens)
/-- Model of `_chunk_content(content, bpe, token_limit)` from `embeddings.rs`. -/
def chunk_content (encode : String → List Nat) (decode : List Nat → Option String)
    (content : String) (token_limit : Nat) : List String :=
  let tokens := encode content
  if tokens.length ≤ token_limit then [content]
  else chunkLoop encode decode token_limit tokens (rustSplit ". " content) [] [] []
/-- Concrete tokenizer instance for witnesses: one token per character. -/
def charEncode (s : String) : List Nat := s.data.map Char.toNat
/-- Concrete detokenizer instance for witnesses. -/
def charDecode (ts : List Nat) : Option String := some (String.mk (ts.map Char.ofNat))
/-! ### Cosine similarity (`embeddings.rs`, `cosine_similarity`) -/
/-- The `ndarray` dot product of two equal-length vectors, over rationals. -/
def dotList (v1 v2 : List ℚ) : ℚ := (List.zipWith (· * ·) v1 v2).sum
/-- Model of `cosine_similarity(v1, v2)`.  The square root of the float
implementation is modelled by an abstract `sqrtQ` (assumed, where needed, to
vanish exactly on `0`, as `f32::sqrt` does on the nonnegative inputs
`v.dot(v)`). -/
def cosine_similarity (sqrtQ : ℚ → ℚ) (v1 v2 : List ℚ) : ℚ :=
  let dot_product := dotList v1 v2
  let norm_v1 := sqrtQ (dotList v1 v1)
  let norm_v2 := sqrtQ (dotList v2 v2)
  if norm_v1 = 0 ∨ norm_v2 = 0 then 0 else dot_product / (norm_v1 * norm_v2)
/-! ### Embedding orchestrator (`embeddings.rs`, `generate_embeddings`) -/
/-- Model of `doc_loader::Document`. -/
structure Document where
  path : String
  content : String
deriving DecidableEq, Repr
/-- The `ServerError` variants produced along the embedding pipeline. -/
inductive ServerError where
  | internal (msg : String)
  | network (msg : String)
  | parsing (msg : String)
  | tiktoken (msg : String)
  | database (msg : String)
deriving DecidableEq, Repr
/-- Constant `TOKEN_LIMIT` from `generate_embeddings`. -/
def TOKEN_LIMIT : Nat := 8000
/-- Constant `CHUNK_OVERLAP` from `generate_embeddings`. -/
def CHUNK_OVERLAP : Nat := 200
/-- The chunk-preparation phase of `generate_embeddings`: each document whose
token count exceeds `TOKEN_LIMIT` is split by `_chunk_content` with limit
`TOKEN_LIMIT - CHUNK_OVERLAP`, and each piece gets the path
`"{doc.path} [chunk {i+1}/{n}]"` when there are several pieces. -/
def prepare_chunks (encode : String → List Nat) (decode : List Nat → Option String)
    (documents : List Document) : List (String × String) :=
  (documents.map fun doc =>
    let token_count := (encode doc.content).length
    if token_count > TOKEN_LIMIT then
      let chunks := chunk_content encode decode doc.content (TOKEN_LIMIT - CHUNK_OVERLAP)
      let chunk_count := chunks.length
      chunks.enum.map fun ic =>
        let chunk_path :=
          if chunk_count > 1 then
            let i := ic.1 + 1
            s!"{doc.path} [chunk {i}/{chunk_count}]"
          else doc.path
        (chunk_path, ic.2)
    else [(doc.path, doc.content)]).flatten
/-- One chunk-embedding task of `generate_embeddings`: embed the single-element
batch `[content]` via the provider and reject a response whose vector count
differs from 1.  `provider` abstracts `EmbeddingProvider::generate_embeddings`
(returning the vectors and the reported token usage). -/
def embed_chunk (encode : String → List Nat)
    (provider : List String → Except ServerError (List (List ℚ) × Nat))
    (chunk_index : Nat) (path content : String) :
    Except ServerError (String × String × List ℚ × Nat) := do
  let token_count := (encode content).length
  let inputs : List String := [content]
  let (embeddings, _tokens) ← provider inputs
  match embeddings with
  | [e] => pure (path, content, e, token_count)
  | es =>
      let i := chunk_index + 1
      let n := es.length
      throw (.internal s!"Mismatch in response length for chunk {i}. Expected 1, got {n}.")
/-- The result-collection loop of `generate_embeddings`: keep successful
embeddings and their token counts, but return the first error encountered. -/
def collectResults :
    List (Except ServerError (String × String × List ℚ × Nat)) →
      Except ServerError (List (String × String × List ℚ) × Nat)
  | [] => .ok ([], 0)
  | r :: rest =>
      match r with
      | .error e => .error e
      | .ok (p, c, v, t) =>
          match collectResults rest with
          | .error e => .error e
          | .ok (acc, tot) => .ok ((p, c, v) :: acc, t + tot)
/-- Model of `generate_embeddings(documents)`: prepare the chunk worklist,
run one embedding task per chunk, and collect the results (completion order
of the concurrent tasks is modelled as worklist order). -/
def generate_embeddings (encode : String → List Nat) (decode : List Nat → Option String)
    (provider : List String → Except ServerError (List (List ℚ) × Nat))
    (documents : List Document) :
    Except ServerError (List (String × String × List ℚ) × Nat) :=
  let all_chunks := prepare_chunks encode decode documents
  collectResults (all_chunks.enum.map fun x => embed_chunk encode provider x.1 x.2.1 x.2.2)
/-! ### Vector store (`database.rs`)

The Postgres tables are modelled as in-memory lists of rows with the exact
semantics of the SQL statements the code issues: upsert on the natural key
`(crate_name, doc_path)` (keeping `crate_id` and overwriting
content/embedding/token_count/created_at on conflict), statistics recomputed
from the persisted rows, and `k`-nearest search ordered by a vector-distance
operator (`<=>`, abstracted as `dist`). -/
/-- One row of the `doc_embeddings` table. -/
structure DocRow where
  crate_id : Int
  crate_name : String
  doc_path : String
  content : String
  embedding : List ℚ
  token_count : Int
  created_at : Nat
deriving DecidableEq, Repr
/-- The time-independent part of a `doc_embeddings` row (everything except
`created_at`, which the upsert refreshes). -/
structure DocRowCore where
  crate_id : Int
  crate_name : String
  doc_path : String
  content : String
  embedding : List ℚ
  token_count : Int
deriving DecidableEq, Repr
/-- Projection of a row onto its time-independent part. -/
def rowCore (r : DocRow) : DocRowCore :=
  ⟨r.crate_id, r.crate_name, r.doc_path, r.content, r.embedding, r.token_count⟩
/-- One row of the `crates` table. -/
structure CrateRow where
  id : Int
  name : String
  version : Option String
  total_docs : Int
  total_tokens : Int
deriving DecidableEq, Repr
/-- The database state. -/
structure Db where
  crates : List CrateRow
  doc_embeddings : List DocRow
deriving DecidableEq, Repr
/-- The per-chunk upsert issued by `insert_embeddings_batch`:
`INSERT ... ON CONFLICT (crate_name, doc_path) DO UPDATE SET content,
embedding, token_count, created_at` (the conflict branch keeps the existing
row's `crate_id`). -/
def insertEmbeddingRow (t : List DocRow) (crate_id : Int) (crate_name doc_path content : String)
    (embedding : List ℚ) (token_count : Int) (now : Nat) : List DocRow :=
  if t.any fun r => r.crate_name = crate_name ∧ r.doc_path = doc_path then
    t.map fun r =>
      if r.crate_name = crate_name ∧ r.doc_path = doc_path then
        { r with
            content := content
            embedding := embedding
            token_count := token_count
            created_at := now }
      else r
  else t ++ [⟨crate_id, crate_name, doc_path, content, embedding, token_count, now⟩]
/-- The `insertEmbeddingRow` upsert at the level of time-independent row parts. -/
def coreInsert (t : List DocRowCore) (crate_id : Int) (crate_name doc_path content : String)
    (embedding : List ℚ) (token_count : Int) : List DocRowCore :=
  if t.any fun r => r.crate_name = crate_name ∧ r.doc_path = doc_path then
    t.map fun r =>
      if r.crate_name = crate_name ∧ r.doc_path = doc_path then
        { r with
            content := content
            embedding := embedding
            token_count := token_count }
      else r
  else t ++ [⟨crate_id, crate_name, doc_path, content, embedding, token_count⟩]
/-- Model of `update_crate_stats(crate_id)`: recompute (not increment)
`total_docs` and `total_tokens` for the crate from the persisted rows. -/
def update_crate_stats (db : Db) (crate_id : Int) : Db :=
  let rows := db.doc_embeddings.filter fun r => r.crate_id = crate_id
  let cnt : Int := rows.length
  let tok : Int := (rows.map DocRow.token_count).sum
  { db with
      crates := db.crates.map fun c =>
        if c.id = crate_id then { c with total_docs := cnt, total_tokens := tok } else c }
/-- Model of `insert_embeddings_batch(crate_id, crate_name, embeddings)`:
upsert every chunk of the batch (the transaction is modelled by its committed
effect), then recompute the crate statistics.  `now` is the commit timestamp
used for `created_at`. -/
def insert_embeddings_batch (db : Db) (crate_id : Int) (crate_name : String)
    (embeddings : List (String × String × List ℚ × Int)) (now : Nat) : Db :=
  let docs := embeddings.foldl
    (fun t e => insertEmbeddingRow t crate_id crate_name e.1 e.2.1 e.2.2.1 e.2.2.2 now)
    db.doc_embeddings
  update_crate_stats { db with doc_embeddings := docs } crate_id
/-- Model of `search_similar_docs(crate_name, query_embedding, limit)`:
`SELECT doc_path, content, 1 - (embedding <=> $1) AS similarity FROM
doc_embeddings WHERE crate_name = $2 ORDER BY embedding <=> $1 LIMIT $3`.
The pgvector distance operator `<=>` is abstracted as `dist`. -/
def search_similar_docs (dist : List ℚ → List ℚ → ℚ) (db : Db) (crate_name : String)
    (query_embedding : List ℚ) (limit : Nat) : List (String × String × ℚ) :=
  let rows := db.doc_embeddings.filter fun r => r.crate_name = crate_name
  let sorted := rows.mergeSort fun a b =>
    decide (dist a.embedding query_embedding ≤ dist b.embedding query_embedding)
  (sorted.take limit).map fun r =>
    (r.doc_path, r.content, 1 - dist r.embedding query_embedding)
/-! ### Idempotence of the batch upsert (C4) -/
/-- The batch-upsert fold of `insert_embeddings_batch`, at the level of
time-independent row parts. -/
def coreBatch (crate_id : Int) (crate_name : String)
    (b : List (String × String × List ℚ × Int)) (s : List DocRowCore) : List DocRowCore :=
  b.foldl (fun t e => coreInsert t crate_id crate_name e.1 e.2.1 e.2.2.1 e.2.2.2) s
/-- The key `(crate_name, path e)` is present in `s` and every row at that key
already carries the batch entry's content, embedding and token count. -/
def keyFields (cn : String) (e : String × String × List ℚ × Int)
    (s : List DocRowCore) : Prop :=
  (∃ r ∈ s, r.crate_name = cn ∧ r.doc_path = e.1) ∧
  ∀ r ∈ s, r.crate_name = cn ∧ r.doc_path = e.1 →
    r.content = e.2.1 ∧ r.embedding = e.2.2.1 ∧ r.token_count = e.2.2.2
/-! ### Fetcher (`doc_loader.rs`, `fetch_with_retry`) -/
/-- Outcome of one HTTP attempt, as `fetch_with_retry` observes it:
a transport error (`Err(e)` from `reqwest`), or a response with a status code
and — for successful statuses — the result of reading the body
(`none` models a failing `response.text()`). -/
inductive HttpAttempt where
  | transportError
  | response (status : Nat) (body : Option String)
deriving DecidableEq, Repr
/-- The `DocLoaderError` outcomes `fetch_with_retry` can produce, plus
success.  `rateLimited n` carries the attempt count of the
`"Rate limited after {n} attempts"` message, `networkErr c` the status of
`"HTTP {c}"`. -/
inductive FetchOutcome where
  | ok (body : String)
  | httpErr
  | networkErr (status : Nat)
  | rateLimited (attempts : Nat)
deriving DecidableEq, Repr
/-- The retry loop of `fetch_with_retry`.  `responses n` is the outcome of the
`n`-th attempt (0-based), `remaining = max_retries - attempts` (the loop
returns a failure exactly when `attempts >= max_retries`, i.e. when
`remaining = 0`), `delay` is the current backoff in milliseconds, and `waits`
records every completed backoff sleep.  Returns the sleeps performed and the
final outcome. -/
def fetchLoop (responses : Nat → HttpAttempt) : Nat → Nat → Nat → List Nat →
    List Nat × FetchOutcome
  | attempts, remaining, delay, waits =>
    match responses attempts with
    | .response status (some t) =>
        if 200 ≤ status ∧ status < 300 then (waits, .ok t)
        else if status = 429 then
          match remaining with
          | 0 => (waits, .rateLimited (attempts + 1))
          | r + 1 => fetchLoop responses (attempts + 1) r (min (delay * 2) 30000) (waits ++ [delay])
        else
          match remaining with
          | 0 => (waits, .networkErr status)
          | r + 1 => fetchLoop responses (attempts + 1) r (min (delay * 2) 30000) (waits ++ [delay])
    | .response status none =>
        if 200 ≤ status ∧ status < 300 then
          match remaining with
          | 0 => (waits, .httpErr)
          | r + 1 => fetchLoop responses (attempts + 1) r (min (delay * 2) 30000) (waits ++ [delay])
        else if status = 429 then
          match remaining with
          | 0 => (waits, .rateLimited (attempts + 1))
          | r + 1 => fetchLoop responses (attempts + 1) r (min (delay * 2) 30000) (waits ++ [delay])
        else
          match remaining with
          | 0 => (waits, .networkErr status)
          | r + 1 => fetchLoop responses (attempts + 1) r (min (delay * 2) 30000) (waits ++ [delay])
    | .transportError =>
        match remaining with
        | 0 => (waits, .httpErr)
        | r + 1 => fetchLoop responses (attempts + 1) r (min (delay * 2) 30000) (waits ++ [delay])
/-- Model of `fetch_with_retry(client, url, max_retries)`: attempts start at
0 with a 1000 ms initial backoff, doubling and capped at 30000 ms. -/
def fetch_with_retry (responses : Nat → HttpAttempt) (max_retries : Nat) :
    List Nat × FetchOutcome :=
  fetchLoop responses 0 max_retries 1000 []
/-! ### Crawler (`doc_loader.rs`, `load_documents_from_docs_rs`)

The network and the HTML parser are oracles: `web url` returns `none` for a
failed fetch (after `fetch_with_retry`'s internal retries) and otherwise the
page's extracted documentation-block texts and the `href` values of its `<a>`
elements; `joinUrl base href` models `reqwest::Url::parse(base)` followed by
`join(href)` (`none` when either fails).  The version-extraction block
(`doc_loader.rs:90-112`) only sets the reported version string and has no
effect on the crawl control flow; it is not modelled.  The `maxFrontier`
field instruments the crawl with the largest `to_visit` length that occurs,
so that frontier growth is observable. -/
/-- A fetched page, as the crawl loop consumes it. -/
structure Page where
  blocks : List String
  links : List String
deriving DecidableEq, Repr
/-- Result of a crawl: the extracted documents, the log of URLs actually
fetched, and the largest frontier size that occurred. -/
structure CrawlResult where
  documents : List Document
  fetched : List String
  maxFrontier : Nat
deriving DecidableEq, Repr
/-- The link filter of the crawl loop: follow `./`, `../`, or bare relative
`.html` links. -/
def should_follow (href : String) : Bool :=
  strStartsWith href "./" || strStartsWith href "../" ||
    (!strStartsWith href "http" && !strStartsWith href "#" &&
      !strStartsWith href "/" && strEndsWith href ".html")
/-- The links a processed page adds to the frontier: resolvable followed
hrefs whose absolute URL contains `docs.rs` and the crate name and is not yet
visited.  (The source has no frontier-size condition.) -/
def new_links (joinUrl : String → String → Option String) (crate_name url : String)
    (visited : List String) (hrefs : List String) : List String :=
  hrefs.filterMap fun href =>
    if should_follow href then
      (joinUrl url href).bind fun new_url =>
        if containsSub new_url "docs.rs" && containsSub new_url crate_name &&
            !visited.contains new_url then some new_url
        else none
    else none
/-- Model of `url.strip_prefix("https://docs.rs/").unwrap_or(&url)`. -/
def stripDocsRs (url : String) : String :=
  if strStartsWith url "https://docs.rs/" then
    String.mk (url.data.drop "https://docs.rs/".data.length)
  else url
/-- The crawl loop of `load_documents_from_docs_rs`: pop the next URL; stop
once `processed` reaches the page budget; skip already-visited URLs before
fetching; otherwise mark visited, count the page, fetch it (a failure is
logged and skipped), emit a document when any nonempty content block was
extracted, and — while `processed < max_pages * 3 / 4` — enqueue the page's
eligible links. -/
def crawlLoop (web : String → Option Page) (joinUrl : String → String → Option String)
    (crate_name : String) (max_pages : Nat) (frontier visited : List String)
    (processed : Nat) (docs : List Document) (fetched : List String) (maxF : Nat) :
    CrawlResult :=
  match frontier with
  | [] => ⟨docs, fetched, maxF⟩
  | url :: rest =>
    if _hbudget : processed ≥ max_pages then ⟨docs, fetched, maxF⟩
    else if visited.contains url then
      crawlLoop web joinUrl crate_name max_pages rest visited processed docs fetched
        (max maxF rest.length)
    else
      let visited' := url :: visited
      let processed' := processed + 1
      let fetched' := fetched ++ [url]
      match web url with
      | none =>
          crawlLoop web joinUrl crate_name max_pages rest visited' processed' docs fetched'
            (max maxF rest.length)
      | some page =>
          let page_content := page.blocks.filter fun b => b ≠ ""
          let docs' :=
            if page_content ≠ [] then
              docs ++ [⟨stripDocsRs url, String.intercalate "\n\n" page_content⟩]
            else docs
          let frontier' :=
            if processed' < max_pages * 3 / 4 then
              rest ++ new_links joinUrl crate_name url visited' page.links
            else rest
          crawlLoop web joinUrl crate_name max_pages frontier' visited' processed' docs'
            fetched' (max maxF frontier'.length)
termination_by (max_pages - processed, frontier.length)
decreasing_by
  · apply Prod.Lex.right
    simp
  · apply Prod.Lex.left
    omega
  · apply Prod.Lex.left
    omega
/-- Model of `load_documents_from_docs_rs(crate_name, max_pages)`:
seed the frontier with `https://docs.rs/{crate}/latest/{crate}/` and run the
crawl loop with the page budget (default 200). -/
def load_documents_from_docs_rs (web : String → Option Page)
    (joinUrl : String → String → Option String) (crate_name : String)
    (max_pages : Option Nat) : CrawlResult :=
  let base_url := "https://docs.rs/" ++ crate_name ++ "/latest/" ++ crate_name ++ "/"
  crawlLoop web joinUrl crate_name (max_pages.getD 200) [base_url] [] 0 [] [] 1
/-- Concrete web for the C8 counterexample: the crate root links to nine
distinct same-crate pages; every other URL fails to fetch. -/
def webNine : String → Option Page := fun u =>
  if u = "https://docs.rs/mycrate/latest/mycrate/" then
    some ⟨[], ["./a1.html", "./a2.html", "./a3.html", "./a4.html", "./a5.html",
               "./a6.html", "./a7.html", "./a8.html", "./a9.html"]⟩
  else none
/-- URL join oracle for the C8 counterexample: plain concatenation. -/
def joinConcat : String → String → Option String := fun base href => some (base ++ href)

/-! ## Theorems -/

lemma dotList_self_nonneg (v : List ℚ) : 0 ≤ dotList v v := by
  induction v with
  | nil => simp [dotList]
  | cons a t ih =>
      have : dotList (a :: t) (a :: t) = a * a + dotList t t := by
        simp [dotList]
      rw [this]
      nlinarith [mul_self_nonneg a]
/-! ### Theorems about the chunker -/
/-- C2: for every input content whose token count is at most the token limit,
`_chunk_content(content, limit)` returns exactly one chunk, and that chunk is
the input content itself. -/
theorem chunk_content_small_input_single_chunk
    (encode : String → List Nat) (decode : List Nat → Option String)
    (content : String) (token_limit : Nat)
    (h : (encode content).length ≤ token_limit) :
    chunk_content encode decode content token_limit = [content] := by
  simp [chunk_content, h]
theorem chunk_content_small_input_single_chunk_witness :
    (charEncode "ab").length ≤ 5 ∧
      chunk_content charEncode charDecode "ab" 5 = ["ab"] :=
  ⟨by decide, chunk_content_small_input_single_chunk charEncode charDecode "ab" 5 (by decide)⟩
/-- C3 (code bug): the oversized-sentence fallback of `_chunk_content` splits
the token list of the **whole content** (`tokens`), not of the single
oversized sentence (`sentence_tokens`), contradicting the source's own
comment ("If a single sentence exceeds the limit, we need to split it
further") and warning ("Single sentence exceeds token limit, splitting by
tokens").  Evaluated at a one-token-per-character tokenizer, content
`"aaaaaa. b. c"` and limit 5: the first sentence (7 tokens) triggers the
fallback, which re-emits the entire content as the chunks
`"aaaaa"`, `"a. b."`, `" c"`; the sentences `"b."` and `"c."` are then
emitted a second time as the chunk `"b. c."`.  Concatenating the chunks
therefore does not reconstruct the original sentence sequence even after
discarding fallback-produced chunks. -/
theorem chunk_content_oversized_sentence_duplicates_content :
    chunk_content charEncode charDecode "aaaaaa. b. c" 5 =
      ["aaaaa", "a. b.", " c", "b. c."] := by
  decide
/-! ### Theorems about cosine similarity -/
/-- C10: `cosine_similarity` is total on equal-length vectors; when either
input has zero norm it returns `0` instead of dividing by zero, and otherwise
it returns the dot product divided by the product of the norms.  `sqrtQ`
stands for the float square root, assumed (as is true of `f32::sqrt` on the
nonnegative inputs `v.dot(v)`) to vanish exactly on zero. -/
theorem cosine_similarity_zero_norm_spec
    (sqrtQ : ℚ → ℚ) (hsqrt : ∀ x : ℚ, 0 ≤ x → (sqrtQ x = 0 ↔ x = 0))
    (v1 v2 : List ℚ) (_hlen : v1.length = v2.length) :
    (dotList v1 v1 = 0 ∨ dotList v2 v2 = 0 →
        cosine_similarity sqrtQ v1 v2 = 0) ∧
    (dotList v1 v1 ≠ 0 → dotList v2 v2 ≠ 0 →
        cosine_similarity sqrtQ v1 v2 =
          dotList v1 v2 / (sqrtQ (dotList v1 v1) * sqrtQ (dotList v2 v2))) := by
  constructor
  · intro h
    have hz : sqrtQ (dotList v1 v1) = 0 ∨ sqrtQ (dotList v2 v2) = 0 := by
      rcases h with h | h
      · exact Or.inl ((hsqrt _ (dotList_self_nonneg v1)).mpr h)
      · exact Or.inr ((hsqrt _ (dotList_self_nonneg v2)).mpr h)
    simp [cosine_similarity, hz]
  · intro h1 h2
    have hz1 : sqrtQ (dotList v1 v1) ≠ 0 := fun hc =>
      h1 ((hsqrt _ (dotList_self_nonneg v1)).mp hc)
    have hz2 : sqrtQ (dotList v2 v2) ≠ 0 := fun hc =>
      h2 ((hsqrt _ (dotList_self_nonneg v2)).mp hc)
    simp [cosine_similarity, hz1, hz2]
theorem cosine_similarity_zero_norm_spec_witness :
    cosine_similarity id [0] [5] = 0 :=
  (cosine_similarity_zero_norm_spec id (fun _ _ => Iff.rfl) [0] [5] rfl).1
    (Or.inl (by simp [dotList]))
lemma collectResults_isError {rs : List (Except ServerError (String × String × List ℚ × Nat))}
    (h : ∃ r ∈ rs, r.isOk = false) : ∃ e, collectResults rs = .error e := by
  induction rs with
  | nil => simp at h
  | cons r rest ih =>
      cases r with
      | error e => exact ⟨e, rfl⟩
      | ok v =>
          rcases h with ⟨r', hr', herr⟩
          rcases List.mem_cons.mp hr' with h1 | h1
          · rw [h1] at herr
            simp [Except.isOk, Except.toBool] at herr
          · obtain ⟨e, he⟩ := ih ⟨r', h1, herr⟩
            obtain ⟨p, c, vv, t⟩ := v
            exact ⟨e, by simp [collectResults, he]⟩
/-- C6: if any single chunk-embedding task of an ingestion run fails — in
particular when the provider returns a number of vectors different from the
number of input texts (here, different from 1) — then `generate_embeddings`
returns an error for the whole run: no partial list of embeddings is produced
for persistence. -/
theorem generate_embeddings_task_failure_aborts
    (encode : String → List Nat) (decode : List Nat → Option String)
    (provider : List String → Except ServerError (List (List ℚ) × Nat))
    (documents : List Document)
    (h : ∃ x ∈ (prepare_chunks encode decode documents).enum,
        (embed_chunk encode provider x.1 x.2.1 x.2.2).isOk = false) :
    ∃ e, generate_embeddings encode decode provider documents = .error e := by
  apply collectResults_isError
  rcases h with ⟨x, hx, herr⟩
  exact ⟨embed_chunk encode provider x.1 x.2.1 x.2.2, List.mem_map_of_mem _ hx, herr⟩
/-- Witness for C6, following the spec scenario: a provider that answers every
batch with 2 vectors makes the whole run fail with the mismatch error. -/
theorem generate_embeddings_task_failure_aborts_witness :
    ∃ e, generate_embeddings charEncode charDecode
        (fun _ => .ok ([[1], [2]], 5)) [⟨"p", "hello"⟩] = .error e :=
  generate_embeddings_task_failure_aborts charEncode charDecode
    (fun _ => .ok ([[1], [2]], 5)) [⟨"p", "hello"⟩]
    ⟨(0, "p", "hello"), by decide, by decide⟩
/-- C5: `search_similar_docs(pkg, v, k)` returns at most `k` results, every
returned path (with its content) comes from a stored row of the queried
package, the results are ordered by non-increasing similarity (`1 - dist`),
and a package with no stored chunks yields the empty list rather than an
error. -/
theorem search_similar_docs_spec
    (dist : List ℚ → List ℚ → ℚ) (db : Db) (crate_name : String)
    (query_embedding : List ℚ) (limit : Nat) :
    (search_similar_docs dist db crate_name query_embedding limit).length ≤ limit ∧
    (∀ x ∈ search_similar_docs dist db crate_name query_embedding limit,
        ∃ r ∈ db.doc_embeddings, r.crate_name = crate_name ∧
          x.1 = r.doc_path ∧ x.2.1 = r.content) ∧
    (search_similar_docs dist db crate_name query_embedding limit).Pairwise
      (fun a b => b.2.2 ≤ a.2.2) ∧
    ((∀ r ∈ db.doc_embeddings, r.crate_name ≠ crate_name) →
        search_similar_docs dist db crate_name query_embedding limit = []) := by
  have hsorted : (db.doc_embeddings.filter fun r => r.crate_name = crate_name).Perm
      ((db.doc_embeddings.filter fun r => r.crate_name = crate_name).mergeSort fun a b =>
        decide (dist a.embedding query_embedding ≤ dist b.embedding query_embedding)) :=
    (List.mergeSort_perm _ _).symm
  refine ⟨?_, ?_, ?_, ?_⟩
  · simp only [search_similar_docs, List.length_map]
    exact le_trans (List.length_take_le _ _) (le_refl _) |>.trans (by simp)
  · intro x hx
    simp only [search_similar_docs, List.mem_map] at hx
    obtain ⟨r, hr, hxr⟩ := hx
    have hr₂ := List.mem_of_mem_take hr
    have hr₃ := hsorted.mem_iff.mpr hr₂
    have hr₄ := List.mem_filter.mp hr₃
    refine ⟨r, hr₄.1, by simpa using hr₄.2, ?_, ?_⟩ <;> simp [← hxr]
  · have hpw := @List.sorted_mergeSort DocRow
      (fun a b : DocRow =>
        decide (dist a.embedding query_embedding ≤ dist b.embedding query_embedding))
      (fun a b c hab hbc => by
        simp only [decide_eq_true_eq] at hab hbc ⊢
        exact le_trans hab hbc)
      (fun a b => by
        simp only [Bool.or_eq_true, decide_eq_true_eq]
        exact le_total _ _)
      (db.doc_embeddings.filter fun r => r.crate_name = crate_name)
    have htake := hpw.sublist (List.take_sublist limit _) |>.imp id
    simp only [search_similar_docs]
    refine List.pairwise_map.mpr ?_
    refine (hpw.sublist (List.take_sublist limit _)).imp ?_
    intro a b hab
    simp only [decide_eq_true_eq] at hab
    simpa using sub_le_sub_left hab 1
  · intro h
    have hfil : (db.doc_embeddings.filter fun r => r.crate_name = crate_name) = [] := by
      refine List.filter_eq_nil_iff.mpr ?_
      intro r hr
      simpa using h r hr
    simp [search_similar_docs, hfil]
/-- Witness for C5 (the spec's empty-package scenario): searching a package
with no stored chunks returns the empty list. -/
theorem search_similar_docs_spec_witness :
    search_similar_docs (fun _ _ => 0)
      ⟨[], [⟨1, "tokio", "p", "c", [1], 3, 0⟩]⟩ "axum" [1] 5 = [] :=
  (search_similar_docs_spec (fun _ _ => 0)
      ⟨[], [⟨1, "tokio", "p", "c", [1], 3, 0⟩]⟩ "axum" [1] 5).2.2.2
    (by decide)
lemma list_any_map {α β : Type} (f : α → β) (l : List α) (p : β → Bool) :
    (l.map f).any p = l.any fun a => p (f a) := by
  induction l with
  | nil => rfl
  | cons a t ih => simp [ih]
lemma rowCore_insert (t : List DocRow) (cid : Int) (cn p c : String) (emb : List ℚ)
    (tk : Int) (now : Nat) :
    (insertEmbeddingRow t cid cn p c emb tk now).map rowCore =
      coreInsert (t.map rowCore) cid cn p c emb tk := by
  simp only [insertEmbeddingRow, coreInsert]
  have hany : (t.map rowCore).any (fun r => r.crate_name = cn ∧ r.doc_path = p) =
      t.any (fun r => r.crate_name = cn ∧ r.doc_path = p) := by
    rw [list_any_map]
    rfl
  rw [hany]
  by_cases h : t.any (fun r => decide (r.crate_name = cn ∧ r.doc_path = p)) = true
  · rw [if_pos h, if_pos h, List.map_map, List.map_map]
    refine List.map_congr_left fun r _ => ?_
    by_cases hr : r.crate_name = cn ∧ r.doc_path = p
    · simp only [Function.comp_apply, if_pos hr, rowCore]
    · simp only [Function.comp_apply, if_neg hr, rowCore]
  · rw [if_neg h, if_neg h, List.map_append]
    rfl
lemma rowCore_fold (b : List (String × String × List ℚ × Int)) (t : List DocRow)
    (cid : Int) (cn : String) (now : Nat) :
    (b.foldl (fun t e => insertEmbeddingRow t cid cn e.1 e.2.1 e.2.2.1 e.2.2.2 now)
        t).map rowCore = coreBatch cid cn b (t.map rowCore) := by
  induction b generalizing t with
  | nil => rfl
  | cons e rest ih =>
      simp only [coreBatch, List.foldl_cons] at *
      rw [ih, rowCore_insert]
lemma keyFields_insert_self (s : List DocRowCore) (cid : Int) (cn : String)
    (e : String × String × List ℚ × Int) :
    keyFields cn e (coreInsert s cid cn e.1 e.2.1 e.2.2.1 e.2.2.2) := by
  unfold coreInsert
  by_cases h : s.any (fun r => decide (r.crate_name = cn ∧ r.doc_path = e.1)) = true
  · rw [if_pos h]
    obtain ⟨r0, hr0, hkey0⟩ := List.any_eq_true.mp h
    simp only [decide_eq_true_eq] at hkey0
    constructor
    · refine ⟨_, List.mem_map_of_mem _ hr0, ?_⟩
      rw [if_pos hkey0]
      exact hkey0
    · intro r hr hkey
      obtain ⟨r', _hr', hr'eq⟩ := List.mem_map.mp hr
      by_cases hk' : r'.crate_name = cn ∧ r'.doc_path = e.1
      · rw [if_pos hk'] at hr'eq
        rw [← hr'eq]
        exact ⟨rfl, rfl, rfl⟩
      · rw [if_neg hk'] at hr'eq
        rw [← hr'eq] at hkey
        exact absurd hkey hk'
  · rw [if_neg h]
    constructor
    · exact ⟨_, List.mem_append_right _ (List.mem_singleton_self _), ⟨rfl, rfl⟩⟩
    · intro r hr hkey
      rcases List.mem_append.mp hr with hin | hin
      · exfalso
        apply h
        exact List.any_eq_true.mpr ⟨r, hin, by simpa using hkey⟩
      · rw [List.mem_singleton.mp hin]
        exact ⟨rfl, rfl, rfl⟩
lemma keyFields_insert_other (s : List DocRowCore) (cid : Int) (cn : String)
    (e : String × String × List ℚ × Int) (p' c' : String) (emb' : List ℚ) (tk' : Int)
    (hne : p' ≠ e.1) (h : keyFields cn e s) :
    keyFields cn e (coreInsert s cid cn p' c' emb' tk') := by
  obtain ⟨⟨r0, hr0, hkey0⟩, hall⟩ := h
  unfold coreInsert
  by_cases hany : s.any (fun r => decide (r.crate_name = cn ∧ r.doc_path = p')) = true
  · rw [if_pos hany]
    constructor
    · refine ⟨_, List.mem_map_of_mem _ hr0, ?_⟩
      have hno : ¬(r0.crate_name = cn ∧ r0.doc_path = p') := by
        intro hc
        exact hne (hc.2.symm.trans hkey0.2)
      rw [if_neg hno]
      exact hkey0
    · intro r hr hkey
      obtain ⟨r', hr', hr'eq⟩ := List.mem_map.mp hr
      by_cases hk' : r'.crate_name = cn ∧ r'.doc_path = p'
      · rw [if_pos hk'] at hr'eq
        rw [← hr'eq] at hkey
        exact absurd (hk'.2.symm.trans hkey.2) hne
      · rw [if_neg hk'] at hr'eq
        rw [← hr'eq] at hkey ⊢
        exact hall r' hr' hkey
  · rw [if_neg hany]
    constructor
    · exact ⟨r0, List.mem_append_left _ hr0, hkey0⟩
    · intro r hr hkey
      rcases List.mem_append.mp hr with hin | hin
      · exact hall r hin hkey
      · rw [List.mem_singleton.mp hin] at hkey
        exact absurd hkey.2 hne
lemma keyFields_batch_other (cid : Int) (cn : String)
    (e : String × String × List ℚ × Int) :
    ∀ (rest : List (String × String × List ℚ × Int)) (s : List DocRowCore),
      (∀ e' ∈ rest, e'.1 ≠ e.1) → keyFields cn e s →
        keyFields cn e (coreBatch cid cn rest s) := by
  intro rest
  induction rest with
  | nil => intro s _ h; exact h
  | cons e' rest' ih =>
      intro s hne h
      simp only [coreBatch, List.foldl_cons]
      exact ih _ (fun x hx => hne x (List.mem_cons_of_mem _ hx))
        (keyFields_insert_other s cid cn e e'.1 e'.2.1 e'.2.2.1 e'.2.2.2
          (hne e' (List.mem_cons_self _ _)) h)
lemma keyFields_after_batch (cid : Int) (cn : String) :
    ∀ (b : List (String × String × List ℚ × Int)) (s : List DocRowCore),
      (b.map Prod.fst).Nodup → ∀ e ∈ b, keyFields cn e (coreBatch cid cn b s) := by
  intro b
  induction b with
  | nil => intro s _ e he; simp at he
  | cons e0 rest ih =>
      intro s hnodup e he
      simp only [List.map_cons, List.nodup_cons] at hnodup
      rcases List.mem_cons.mp he with h1 | h1
      · subst h1
        simp only [coreBatch, List.foldl_cons]
        refine keyFields_batch_other cid cn e rest _ ?_ (keyFields_insert_self s cid cn e)
        intro e' he' hc
        exact hnodup.1 (hc ▸ List.mem_map_of_mem Prod.fst he')
      · simp only [coreBatch, List.foldl_cons]
        exact ih _ hnodup.2 e h1
lemma coreInsert_fixed (s : List DocRowCore) (cid : Int) (cn : String)
    (e : String × String × List ℚ × Int) (h : keyFields cn e s) :
    coreInsert s cid cn e.1 e.2.1 e.2.2.1 e.2.2.2 = s := by
  obtain ⟨⟨r0, hr0, hkey0⟩, hall⟩ := h
  unfold coreInsert
  rw [if_pos (List.any_eq_true.mpr ⟨r0, hr0, by simpa using hkey0⟩)]
  have hpt : ∀ r ∈ s,
      (if r.crate_name = cn ∧ r.doc_path = e.1 then
        { r with
            content := e.2.1
            embedding := e.2.2.1
            token_count := e.2.2.2 }
      else r) = id r := by
    intro r hr
    by_cases hk : r.crate_name = cn ∧ r.doc_path = e.1
    · rw [if_pos hk]
      obtain ⟨hc, hemb, ht⟩ := hall r hr hk
      cases r
      simp_all
    · rw [if_neg hk]
      rfl
  rw [List.map_congr_left hpt, List.map_id]
lemma coreBatch_fixed (b : List (String × String × List ℚ × Int))
    (s : List DocRowCore) (cid : Int) (cn : String)
    (h : ∀ e ∈ b, keyFields cn e s) :
    coreBatch cid cn b s = s := by
  induction b with
  | nil => rfl
  | cons e rest ih =>
      simp only [coreBatch, List.foldl_cons]
      rw [coreInsert_fixed s cid cn e (h e (List.mem_cons_self _ _))]
      exact ih fun e' he' => h e' (List.mem_cons_of_mem _ he')
lemma coreBatch_idem (b : List (String × String × List ℚ × Int))
    (s : List DocRowCore) (cid : Int) (cn : String)
    (hnodup : (b.map Prod.fst).Nodup) :
    coreBatch cid cn b (coreBatch cid cn b s) = coreBatch cid cn b s :=
  coreBatch_fixed b _ cid cn (keyFields_after_batch cid cn b s hnodup)
lemma filter_crate_len (docs : List DocRow) (cid : Int) :
    (docs.filter fun r => r.crate_id = cid).length =
      ((docs.map rowCore).filter fun c => c.crate_id = cid).length := by
  induction docs with
  | nil => rfl
  | cons r t ih =>
      by_cases h : r.crate_id = cid <;>
        simp [List.filter_cons, h, ih, rowCore]
lemma filter_crate_tokens (docs : List DocRow) (cid : Int) :
    ((docs.filter fun r => r.crate_id = cid).map DocRow.token_count) =
      (((docs.map rowCore).filter fun c => c.crate_id = cid).map DocRowCore.token_count) := by
  induction docs with
  | nil => rfl
  | cons r t ih =>
      by_cases h : r.crate_id = cid <;>
        simp [List.filter_cons, h, ih, rowCore]
lemma stats_map_idem (docsX docsY : List DocRow) (cid : Int) (cs : List CrateRow)
    (h : docsX.map rowCore = docsY.map rowCore) :
    ((cs.map fun c =>
        if c.id = cid then
          { c with
              total_docs := ((docsY.filter fun r => r.crate_id = cid).length : Int)
              total_tokens := ((docsY.filter fun r => r.crate_id = cid).map
                DocRow.token_count).sum }
        else c).map fun c =>
      if c.id = cid then
        { c with
            total_docs := ((docsX.filter fun r => r.crate_id = cid).length : Int)
            total_tokens := ((docsX.filter fun r => r.crate_id = cid).map
              DocRow.token_count).sum }
      else c) =
    cs.map fun c =>
      if c.id = cid then
        { c with
            total_docs := ((docsY.filter fun r => r.crate_id = cid).length : Int)
            total_tokens := ((docsY.filter fun r => r.crate_id = cid).map
              DocRow.token_count).sum }
      else c := by
  have hcnt : (docsX.filter fun r => r.crate_id = cid).length =
      (docsY.filter fun r => r.crate_id = cid).length := by
    rw [filter_crate_len, filter_crate_len, h]
  have htok : ((docsX.filter fun r => r.crate_id = cid).map DocRow.token_count) =
      ((docsY.filter fun r => r.crate_id = cid).map DocRow.token_count) := by
    rw [filter_crate_tokens, filter_crate_tokens, h]
  rw [hcnt, htok, List.map_map]
  refine List.map_congr_left fun c _ => ?_
  by_cases hc : c.id = cid <;> simp [Function.comp_apply, hc]
/-- C4: `insert_embeddings_batch` is idempotent.  Applying the same batch (with
pairwise-distinct chunk paths, as the chunker produces) twice leaves the store
in the same state as applying it once: every persisted `doc_embeddings` row is
identical up to its refreshed `created_at` timestamp — in particular the
stored content per `(crate_name, doc_path)` key — and the crate's
`total_docs`/`total_tokens` counters, recomputed from the persisted rows
after commit rather than incremented, are identical. -/
theorem insert_embeddings_batch_idempotent
    (db : Db) (cid : Int) (cname : String)
    (batch : List (String × String × List ℚ × Int)) (n1 n2 : Nat)
    (hnodup : (batch.map Prod.fst).Nodup) :
    ((insert_embeddings_batch (insert_embeddings_batch db cid cname batch n1)
        cid cname batch n2).doc_embeddings.map rowCore =
      (insert_embeddings_batch db cid cname batch n1).doc_embeddings.map rowCore) ∧
    (insert_embeddings_batch (insert_embeddings_batch db cid cname batch n1)
        cid cname batch n2).crates =
      (insert_embeddings_batch db cid cname batch n1).crates := by
  have hdocs1 : (insert_embeddings_batch db cid cname batch n1).doc_embeddings =
      batch.foldl
        (fun t e => insertEmbeddingRow t cid cname e.1 e.2.1 e.2.2.1 e.2.2.2 n1)
        db.doc_embeddings := by
    simp [insert_embeddings_batch, update_crate_stats]
  have hdocs2 : (insert_embeddings_batch (insert_embeddings_batch db cid cname batch n1)
        cid cname batch n2).doc_embeddings =
      batch.foldl
        (fun t e => insertEmbeddingRow t cid cname e.1 e.2.1 e.2.2.1 e.2.2.2 n2)
        (insert_embeddings_batch db cid cname batch n1).doc_embeddings := by
    simp [insert_embeddings_batch, update_crate_stats]
  have hcore : (insert_embeddings_batch (insert_embeddings_batch db cid cname batch n1)
        cid cname batch n2).doc_embeddings.map rowCore =
      (insert_embeddings_batch db cid cname batch n1).doc_embeddings.map rowCore := by
    rw [hdocs2, rowCore_fold, hdocs1, rowCore_fold]
    exact coreBatch_idem batch _ cid cname hnodup
  refine ⟨hcore, ?_⟩
  have hcr1 : (insert_embeddings_batch db cid cname batch n1).crates =
      db.crates.map fun c =>
        if c.id = cid then
          { c with
              total_docs :=
                (((insert_embeddings_batch db cid cname batch n1).doc_embeddings.filter
                  fun r => r.crate_id = cid).length : Int)
              total_tokens :=
                (((insert_embeddings_batch db cid cname batch n1).doc_embeddings.filter
                  fun r => r.crate_id = cid).map DocRow.token_count).sum }
        else c := by
    conv_lhs => rw [insert_embeddings_batch]
    simp only [update_crate_stats, hdocs1]
  have hcr2 : (insert_embeddings_batch (insert_embeddings_batch db cid cname batch n1)
        cid cname batch n2).crates =
      (insert_embeddings_batch db cid cname batch n1).crates.map fun c =>
        if c.id = cid then
          { c with
              total_docs :=
                (((insert_embeddings_batch (insert_embeddings_batch db cid cname batch n1)
                  cid cname batch n2).doc_embeddings.filter
                  fun r => r.crate_id = cid).length : Int)
              total_tokens :=
                (((insert_embeddings_batch (insert_embeddings_batch db cid cname batch n1)
                  cid cname batch n2).doc_embeddings.filter
                  fun r => r.crate_id = cid).map DocRow.token_count).sum }
        else c := by
    conv_lhs => rw [insert_embeddings_batch]
    simp only [update_crate_stats, hdocs2]
  rw [hcr2, hcr1]
  exact stats_map_idem _ _ cid db.crates hcore
/-- Witness for C4 at a concrete store and batch. -/
theorem insert_embeddings_batch_idempotent_witness :
    ((insert_embeddings_batch (insert_embeddings_batch ⟨[⟨7, "serde", none, 0, 0⟩], []⟩
        7 "serde" [("p", "c", [1], 3)] 10) 7 "serde" [("p", "c", [1], 3)] 20).doc_embeddings.map
        rowCore =
      (insert_embeddings_batch ⟨[⟨7, "serde", none, 0, 0⟩], []⟩
        7 "serde" [("p", "c", [1], 3)] 10).doc_embeddings.map rowCore) ∧
    (insert_embeddings_batch (insert_embeddings_batch ⟨[⟨7, "serde", none, 0, 0⟩], []⟩
        7 "serde" [("p", "c", [1], 3)] 10) 7 "serde" [("p", "c", [1], 3)] 20).crates =
      (insert_embeddings_batch ⟨[⟨7, "serde", none, 0, 0⟩], []⟩
        7 "serde" [("p", "c", [1], 3)] 10).crates :=
  insert_embeddings_batch_idempotent ⟨[⟨7, "serde", none, 0, 0⟩], []⟩
    7 "serde" [("p", "c", [1], 3)] 10 20 (by decide)
/-- C9: on repeated HTTP 429 responses, with the retry bound 3 the repository
configures (`doc_loader.rs:80`), `fetch_with_retry` retries exactly 3 times
(performing 3 backoff waits), each wait strictly greater than the previous
(1000, 2000, 4000 ms), and then fails with the `RateLimited` error reporting
4 attempts. -/
theorem fetch_with_retry_429_spec :
    fetch_with_retry (fun _ => .response 429 (some "retry later")) 3 =
      ([1000, 2000, 4000], .rateLimited 4) ∧
    [1000, 2000, 4000].Chain' (· < ·) := by
  constructor
  · rfl
  · norm_num [List.chain'_cons]
/-- C1 (counterexample): a non-2xx, non-429 status is **not** a terminal
failure for the URL.  With a first attempt answering HTTP 404 and a second
answering HTTP 200, `fetch_with_retry` sleeps once (1000 ms) and returns the
second attempt's body successfully — it does issue further attempts, and
returns no error. -/
theorem fetch_with_retry_non2xx_retries_counterexample :
    fetch_with_retry
      (fun n => if n = 0 then .response 404 (some "not found") else .response 200 (some "body"))
      3 = ([1000], .ok "body") := by
  rfl
/-- C1 (amended): a non-2xx, non-429 status is retried with the same
exponential backoff as transport errors; only after exhausting the retry
bound 3 the repository configures does `fetch_with_retry` fail, with the
`Network` error carrying that HTTP status. -/
theorem fetch_with_retry_non2xx_exhausts_retries
    (status : Nat) (body : Option String)
    (hns : ¬(200 ≤ status ∧ status < 300)) (hnr : status ≠ 429) :
    fetch_with_retry (fun _ => .response status body) 3 =
      ([1000, 2000, 4000], .networkErr status) := by
  cases body <;>
    simp [fetch_with_retry, fetchLoop, hns, hnr]
theorem fetch_with_retry_non2xx_exhausts_retries_witness :
    fetch_with_retry (fun _ => .response 404 (some "not found")) 3 =
      ([1000, 2000, 4000], .networkErr 404) :=
  fetch_with_retry_non2xx_exhausts_retries 404 (some "not found") (by decide) (by decide)
lemma crawlLoop_fetched_invariant (web : String → Option Page)
    (joinUrl : String → String → Option String) (crate_name : String) (max_pages : Nat) :
    ∀ (frontier visited : List String) (processed : Nat) (docs : List Document)
      (fetched : List String) (maxF : Nat),
      fetched.Nodup → (∀ u ∈ fetched, u ∈ visited) →
      (crawlLoop web joinUrl crate_name max_pages frontier visited processed docs fetched
          maxF).fetched.Nodup ∧
      (crawlLoop web joinUrl crate_name max_pages frontier visited processed docs fetched
          maxF).fetched.length ≤ fetched.length + (max_pages - processed) := by
  intro frontier visited processed docs fetched maxF
  induction frontier, visited, processed, docs, fetched, maxF
    using crawlLoop.induct web joinUrl crate_name max_pages with
  | case1 visited processed docs fetched maxF =>
      intro hN _hV
      rw [crawlLoop]
      exact ⟨hN, Nat.le_add_right _ _⟩
  | case2 visited processed docs fetched maxF url rest hb =>
      intro hN _hV
      rw [crawlLoop]
      simp only [hb, dif_pos]
      exact ⟨hN, Nat.le_add_right _ _⟩
  | case3 visited processed docs fetched maxF url rest hb hv ih =>
      intro hN hV
      rw [crawlLoop]
      simp only [hb, hv, dif_neg, if_pos, if_true]
      exact ih hN hV
  | case4 visited processed docs fetched maxF url rest hb hv visited' processed'
      fetched' hweb ih =>
      intro hN hV
      have hnv : url ∉ visited := by
        intro hm
        exact hv (by simpa using hm)
      have hN' : (fetched ++ [url]).Nodup := by
        simp only [List.nodup_append, List.nodup_cons, List.nodup_nil, and_true,
          List.disjoint_singleton, true_and]
        exact ⟨hN, by simp, fun hm => hnv (hV url hm)⟩
      have hV' : ∀ u ∈ fetched ++ [url], u ∈ url :: visited := by
        intro u hu
        rcases List.mem_append.mp hu with h | h
        · exact List.mem_cons_of_mem _ (hV u h)
        · rw [List.mem_singleton.mp h]
          exact List.mem_cons_self _ _
      unfold visited' processed' fetched' at ih
      obtain ⟨ihN, ihL⟩ := ih hN' hV'
      rw [crawlLoop]
      simp only [hb, hv, hweb, dite_false, Bool.false_eq_true, if_false]
      refine ⟨ihN, ?_⟩
      have hlen : (fetched ++ [url]).length = fetched.length + 1 := by simp
      rw [hlen] at ihL
      omega
  | case5 visited processed docs fetched maxF url rest hb hv visited' processed'
      fetched' page hweb page_content docs' frontier' ih =>
      intro hN hV
      have hnv : url ∉ visited := by
        intro hm
        exact hv (by simpa using hm)
      have hN' : (fetched ++ [url]).Nodup := by
        simp only [List.nodup_append, List.nodup_cons, List.nodup_nil, and_true,
          List.disjoint_singleton, true_and]
        exact ⟨hN, by simp, fun hm => hnv (hV url hm)⟩
      have hV' : ∀ u ∈ fetched ++ [url], u ∈ url :: visited := by
        intro u hu
        rcases List.mem_append.mp hu with h | h
        · exact List.mem_cons_of_mem _ (hV u h)
        · rw [List.mem_singleton.mp h]
          exact List.mem_cons_self _ _
      unfold frontier' docs' at ih
      unfold page_content visited' processed' fetched' at ih
      simp only [dite_eq_ite] at ih
      obtain ⟨ihN, ihL⟩ := ih hN' hV'
      rw [crawlLoop]
      simp only [hb, hv, hweb, dite_false, Bool.false_eq_true, if_false]
      refine ⟨ihN, ?_⟩
      have hlen : (fetched ++ [url]).length = fetched.length + 1 := by simp
      rw [hlen] at ihL
      omega
/-- C7: during a crawl no URL is fetched twice (an already-visited URL popped
from the frontier is skipped before fetching), and the loop performs at most
`max_pages` (default 200) fetch attempts before terminating — for every link
structure, including cyclic ones. -/
theorem crawl_no_refetch_and_bounded (web : String → Option Page)
    (joinUrl : String → String → Option String) (crate_name : String)
    (max_pages : Option Nat) :
    (load_documents_from_docs_rs web joinUrl crate_name max_pages).fetched.Nodup ∧
    (load_documents_from_docs_rs web joinUrl crate_name max_pages).fetched.length ≤
      max_pages.getD 200 := by
  have h := crawlLoop_fetched_invariant web joinUrl crate_name (max_pages.getD 200)
    ["https://docs.rs/" ++ crate_name ++ "/latest/" ++ crate_name ++ "/"] [] 0 [] [] 1
    List.nodup_nil (by intro u hu; simp at hu)
  simpa [load_documents_from_docs_rs] using h
/-- C8 (counterexample): the crawl loop imposes **no** frontier-size bound.
With `max_pages = 4`, processing the root page (which links to nine eligible
pages) pushes all nine links, so the frontier reaches 9 entries, exceeding
`2 × max_pages = 8`. -/
theorem crawl_frontier_exceeds_bound_counterexample :
    2 * 4 < (load_documents_from_docs_rs webNine joinConcat "mycrate" (some 4)).maxFrontier := by
  simp +decide [load_documents_from_docs_rs, crawlLoop, webNine, joinConcat, new_links,
    should_follow, containsSub, rustSplit, splitSepAux, strStartsWith, strEndsWith,
    stripDocsRs]
/-- C8 (amended): a discovered link is enqueued exactly when its `href` passes
the relative-link filter, it resolves against the current page URL, the
resolved URL contains both `docs.rs` and the crate name, and it is not yet
visited; the source applies no frontier-size condition (and by the
counterexample the frontier can exceed `2 × max_pages`). -/
theorem new_links_enqueue_characterization
    (joinUrl : String → String → Option String) (crate_name url : String)
    (visited : List String) (hrefs : List String) (u : String) :
    u ∈ new_links joinUrl crate_name url visited hrefs ↔
      ∃ href ∈ hrefs, should_follow href = true ∧ joinUrl url href = some u ∧
        containsSub u "docs.rs" = true ∧ containsSub u crate_name = true ∧
        u ∉ visited := by
  simp only [new_links, List.mem_filterMap]
  constructor
  · rintro ⟨href, hh, heq⟩
    by_cases hsf : should_follow href = true
    · rw [if_pos hsf] at heq
      cases hju : joinUrl url href with
      | none =>
          rw [hju, Option.none_bind] at heq
          exact absurd heq (by simp)
      | some v =>
          rw [hju, Option.some_bind] at heq
          by_cases hcond : (containsSub v "docs.rs" && containsSub v crate_name &&
              !visited.contains v) = true
          · rw [if_pos hcond] at heq
            obtain rfl : v = u := Option.some_injective _ heq
            simp only [Bool.and_eq_true, Bool.not_eq_true'] at hcond
            refine ⟨href, hh, hsf, hju, hcond.1.1, hcond.1.2, ?_⟩
            intro hm
            have hc := hcond.2
            rw [show visited.contains v = true by simpa using hm] at hc
            cases hc
          · rw [if_neg hcond] at heq
            exact absurd heq (by simp)
    · rw [if_neg hsf] at heq
      exact absurd heq (by simp)
  · rintro ⟨href, hh, hsf, hju, h1, h2, hnv⟩
    refine ⟨href, hh, ?_⟩
    rw [if_pos hsf, hju, Option.some_bind, if_pos]
    simp only [Bool.and_eq_true, Bool.not_eq_true']
    exact ⟨⟨h1, h2⟩, by simpa using hnv⟩
theorem new_links_enqueue_characterization_witness :
    "https://docs.rs/serde/latest/serde/./de/index.html" ∈
      new_links joinConcat "serde" "https://docs.rs/serde/latest/serde/" []
        ["./de/index.html"] :=
  (new_links_enqueue_characterization joinConcat "serde"
      "https://docs.rs/serde/latest/serde/" [] ["./de/index.html"]
      "https://docs.rs/serde/latest/serde/./de/index.html").mpr
    ⟨"./de/index.html", by decide, by decide, by decide, by decide, by decide, by decide⟩
end RustDocsMcp
